import Mathlib

/-!
Shallow embedding of `capytaine/mesh/meshes_collection.py`
(class `CollectionOfMeshes`, a composite tree of meshes).

A leaf `Mesh` is the external collaborator of that file: only the parts of
its interface that the collection observes are modelled here (vertex and
face arrays, name, and — where marked `Modelled from the spec:` — behaviour
of methods whose code is not part of the analysed source).

Numeric model: vertex coordinates are exact integers (the collection layer
does no arithmetic on coordinates other than concatenation; the only
division, in the center of mass, produces exact rational values).  A face
is a list of vertex indices (the source stores an integer numpy array);
numpy elementwise `+ n` on a face array is `List.map (List.map (· + n))`.
Python exceptions are modelled by `Except PyErr`.
-/

/-- Kinds of Python exceptions relevant to this file.  The constructors
`emptyCollectionError` and `typeMismatchError` are error classes named only
by the specification (no such class exists in the code); they are included
so that statements about them can be expressed. -/
inductive PyErr where
  | zeroDivisionError
  | assertionError
  | typeError
  | valueError
  | emptyCollectionError
  | typeMismatchError
deriving DecidableEq, Repr

/-- Decidable equality of `Except` results, used to evaluate the embedded
functions on concrete inputs. -/
instance exceptDecEq {ε α : Type} [DecidableEq ε] [DecidableEq α] : DecidableEq (Except ε α) := fun x y =>
  match x, y with
  | .ok a, .ok b =>
      if h : a = b then .isTrue (by rw [h]) else .isFalse (by intro hh; injection hh; contradiction)
  | .error a, .error b =>
      if h : a = b then .isTrue (by rw [h]) else .isFalse (by intro hh; injection hh; contradiction)
  | .ok _, .error _ => .isFalse (by intro hh; injection hh)
  | .error _, .ok _ => .isFalse (by intro hh; injection hh)

/-- A coordinate triple, as stored in a vertex array. -/
abbrev Vec3 := ℤ × ℤ × ℤ

/-- The rational image of an integer coordinate triple, used where Python
division produces a non-integer result. -/
def vecQ (v : Vec3) : ℚ × ℚ × ℚ := ((v.1 : ℚ), (v.2.1 : ℚ), (v.2.2 : ℚ))

/-- The external leaf mesh: vertex positions, faces as lists of vertex
indices, and an optional name. -/
structure Mesh where
  vertices : List Vec3
  faces : List (List Nat)
  name : Option String
deriving DecidableEq, Repr

/-- A node of the composite tree: either a leaf `Mesh` or a
`CollectionOfMeshes` holding an ordered tuple of children and an optional
name (source lines 33–40). -/
inductive MeshNode where
  | leaf (m : Mesh)
  | coll (children : List MeshNode) (name : Option String)
deriving Repr

/-- `Mesh.nb_vertices` of the external leaf mesh: the number of vertices. -/
def Mesh.nb_vertices (m : Mesh) : Nat := m.vertices.length

/-- `Mesh.nb_faces` of the external leaf mesh: the number of faces. -/
def Mesh.nb_faces (m : Mesh) : Nat := m.faces.length

mutual

/-- `nb_vertices` (source lines 107–109): sum of the children's vertex
counts; on a leaf, the leaf's own vertex count. -/
def MeshNode.nb_vertices : MeshNode → Nat
  | .leaf m => m.nb_vertices
  | .coll l _ => nb_verticesL l

/-- Sum of `nb_vertices` over a list of children. -/
def nb_verticesL : List MeshNode → Nat
  | [] => 0
  | t :: ts => t.nb_vertices + nb_verticesL ts

end

mutual

/-- `nb_faces` (source lines 111–113): sum of the children's face counts;
on a leaf, the leaf's own face count. -/
def MeshNode.nb_faces : MeshNode → Nat
  | .leaf m => m.nb_faces
  | .coll l _ => nb_facesL l

/-- Sum of `nb_faces` over a list of children. -/
def nb_facesL : List MeshNode → Nat
  | [] => 0
  | t :: ts => t.nb_faces + nb_facesL ts

end

/-- The children tuple `self._meshes` of a collection (empty on a leaf,
where it is never consulted). -/
def MeshNode.children : MeshNode → List MeshNode
  | .leaf _ => []
  | .coll l _ => l

/-- `nb_submeshes` (source lines 103–105): the number of children. -/
def MeshNode.nb_submeshes (t : MeshNode) : Nat := t.children.length

/-- Whether a node is a leaf mesh (`isinstance(t, Mesh)`). -/
def MeshNode.isLeaf : MeshNode → Bool
  | .leaf _ => true
  | .coll _ _ => false

mutual

/-- `vertices` (source lines 119–121): concatenation of the children's
vertex arrays. -/
def MeshNode.vertices : MeshNode → List Vec3
  | .leaf m => m.vertices
  | .coll l _ => verticesL l

/-- Concatenation of `vertices` over a list of children. -/
def verticesL : List MeshNode → List Vec3
  | [] => []
  | t :: ts => t.vertices ++ verticesL ts

end

mutual

/-- `faces` (source lines 123–130): concatenation of the children's face
arrays, the vertex indices of each child being shifted by the total vertex
count of the preceding children. -/
def MeshNode.faces : MeshNode → List (List Nat)
  | .leaf m => m.faces
  | .coll l _ => facesL l 0

/-- Concatenation of shifted face arrays; `off` is the running vertex-count
offset (`accumulate(chain([0], ...))` in the source). -/
def facesL : List MeshNode → Nat → List (List Nat)
  | [], _ => []
  | t :: ts, off => t.faces.map (List.map (· + off)) ++ facesL ts (off + t.nb_vertices)

end

/-- `indices_of_mesh` (source lines 156–159): the half-open range of face
indices owned by child `i`, as a `(start, stop)` pair standing for the
Python `slice(start, stop)`. -/
def MeshNode.indices_of_mesh (t : MeshNode) (i : Nat) : Nat × Nat :=
  let start := nb_facesL (t.children.take i)
  (start, start + (t.children.getD i (.coll [] none)).nb_faces)

mutual

/-- `center_of_mass_of_nodes` (source lines 148–150):
`sum(mesh.nb_vertices * mesh.center_of_mass_of_nodes for mesh in self) / self.nb_vertices`.
The child terms are evaluated first (list comprehension); the division
raises `ZeroDivisionError` when the total vertex count is zero — in
particular on an empty collection, where the sum over no children is the
integer `0` and `0 / 0` is attempted.
The leaf case is the external `Mesh.center_of_mass_of_nodes`.
Modelled from the spec: the leaf value is the mean of the vertex
positions, undefined (division by the zero vertex count) on a vertex-free
mesh. -/
def MeshNode.center_of_mass_of_nodes : MeshNode → Except PyErr (ℚ × ℚ × ℚ)
  | .leaf m =>
      if m.nb_vertices = 0 then .error .zeroDivisionError
      else .ok ((m.nb_vertices : ℚ)⁻¹ • vecQ m.vertices.sum)
  | .coll l _ =>
      match comTermsL l with
      | .error e => .error e
      | .ok s =>
          if nb_verticesL l = 0 then .error .zeroDivisionError
          else .ok ((nb_verticesL l : ℚ)⁻¹ • s)

/-- Sum of the terms `mesh.nb_vertices * mesh.center_of_mass_of_nodes`
over the children, left to right, propagating the first failure. -/
def comTermsL : List MeshNode → Except PyErr (ℚ × ℚ × ℚ)
  | [] => .ok 0
  | t :: ts =>
      match t.center_of_mass_of_nodes with
      | .error e => .error e
      | .ok c =>
          match comTermsL ts with
          | .error e => .error e
          | .ok s => .ok ((t.nb_vertices : ℚ) • c + s)

end

/-- An arbitrary Python value handed to the constructor: either a mesh
node (a leaf `Mesh` or a `CollectionOfMeshes`) or any other object. -/
inductive PyVal where
  | node (t : MeshNode)
  | other (s : String)

/-- The `isinstance(mesh, Mesh) or isinstance(mesh, CollectionOfMeshes)`
test of source line 38. -/
def PyVal.isMeshOrCollection : PyVal → Bool
  | .node _ => true
  | .other _ => false

/-- `CollectionOfMeshes.__init__` (source lines 33–42): stores the children
as a tuple and `assert`s that each one is a `Mesh` or a
`CollectionOfMeshes`; a failing `assert` raises `AssertionError`. -/
def collectionOfMeshes (meshes : List PyVal) (name : Option String) : Except PyErr MeshNode :=
  if meshes.all PyVal.isMeshOrCollection then
    .ok (.coll (meshes.filterMap (fun v => match v with | .node t => some t | .other _ => none)) name)
  else
    .error .assertionError

/-- Structural equality of two leaf meshes.
Modelled from the spec: the external `Mesh.__eq__` compares the geometry
structurally (vertex and face arrays). -/
def Mesh.structEq (a b : Mesh) : Bool :=
  decide (a.vertices = b.vertices) && decide (a.faces = b.faces)

mutual

/-- `__eq__` (source lines 69–73): two collections compare equal when their
children tuples compare equal elementwise (names are not compared); a
collection never compares equal to a leaf mesh. -/
def nodeEq : MeshNode → MeshNode → Bool
  | .leaf a, .leaf b => a.structEq b
  | .coll l1 _, .coll l2 _ => nodeEqL l1 l2
  | .leaf _, .coll _ _ => false
  | .coll _ _, .leaf _ => false

/-- Elementwise equality of two children tuples (Python tuple `==`). -/
def nodeEqL : List MeshNode → List MeshNode → Bool
  | [], [] => true
  | a :: ts, b :: us => nodeEq a b && nodeEqL ts us
  | [], _ :: _ => false
  | _ :: _, [] => false

end

mutual

/-- The same tree with every name (leaf and collection) removed: two nodes
are `nodeEq` exactly when their name-erased trees coincide. -/
def eraseNames : MeshNode → MeshNode
  | .leaf m => .leaf ⟨m.vertices, m.faces, none⟩
  | .coll l _ => .coll (eraseNamesL l) none

/-- `eraseNames` applied to each element of a children tuple. -/
def eraseNamesL : List MeshNode → List MeshNode
  | [] => []
  | t :: ts => eraseNames t :: eraseNamesL ts

end

/-- A text block is represented by its non-empty list of lines: the Python
string `prefix + s.replace('\n', '\n' + shift)` of source line 88 prepends
`pfx` to the first line of the block and `shift` to every following line. -/
def decorate (pfx shift : String) : List String → List String
  | [] => [pfx]
  | x :: xs => (pfx ++ x) :: xs.map (fun y => shift ++ y)

/-- The external `Mesh.tree_view`.
Modelled from the spec: a leaf renders as a single line showing its
display name. -/
def Mesh.tree_view (m : Mesh) : List String := [m.name.getD "mesh"]

mutual

/-- `tree_view` (source lines 78–90): renders each child, prefixing every
child but the last with the continuing branch glyph and a continuation bar
on its wrapped lines, and the last child with the corner glyph and blank
continuation; then concatenates `self.name + '\n' + body`.  When the name
is `None`, the `str + NoneType` concatenation raises `TypeError` (after
the children have been rendered, the loop running first). -/
def MeshNode.tree_view : MeshNode → Except PyErr (List String)
  | .leaf m => .ok m.tree_view
  | .coll l nm =>
      match treeViewChildrenL l with
      | .error e => .error e
      | .ok blocks =>
          match nm with
          | none => .error .typeError
          | some n => .ok (n :: blocks.flatten)

/-- The decorated child blocks of source lines 79–88, in order: every child
but the last gets `' ├─'` and shift `' │ '`, the last child gets `' └─'`
and shift `'   '`. -/
def treeViewChildrenL : List MeshNode → Except PyErr (List (List String))
  | [] => .ok []
  | [t] =>
      match t.tree_view with
      | .error e => .error e
      | .ok b => .ok [decorate " └─" "   " b]
  | t :: t2 :: ts =>
      match t.tree_view with
      | .error e => .error e
      | .ok b =>
          match treeViewChildrenL (t2 :: ts) with
          | .error e => .error e
          | .ok bs => .ok (decorate " ├─" " │ " b :: bs)

end

/-- A clipping plane with integer normal and offset; the kept side is the
set of points `v` with `⟪n, v⟫ ≤ c`. -/
structure Plane where
  n : Vec3
  c : ℤ
deriving DecidableEq, Repr

/-- Euclidean scalar product of two coordinate triples. -/
def dot3 (a b : Vec3) : ℤ := a.1 * b.1 + a.2.1 * b.2.1 + a.2.2 * b.2.2

/-- Whether a point lies on the kept side of the plane. -/
def Plane.keeps (p : Plane) (v : Vec3) : Bool := decide (dot3 p.n v ≤ p.c)

/-- The external `Mesh.clip`.
Modelled from the spec: clipping trims the mesh to the kept side of the
plane, discarding the rest; the surviving faces (here: the faces all of
whose vertices lie on the kept side) are recorded, in order, as indices
into the mesh's own pre-clip face array in `_clipping_data['faces_ids']`;
vertices on the discarded side are dropped. -/
def Mesh.clip (m : Mesh) (p : Plane) : Mesh × List Nat :=
  let ids := (List.range m.nb_faces).filter
    (fun i => (m.faces.getD i []).all (fun vi => p.keeps (m.vertices.getD vi (0, 0, 0))))
  (⟨m.vertices.filter p.keeps, ids.map (fun i => m.faces.getD i []), m.name⟩, ids)

/-- `prune_empty_meshes` (source lines 219–222): keep only the children
with a strictly positive face count and a strictly positive vertex
count. -/
def prune_empty_meshes (l : List MeshNode) : List MeshNode :=
  l.filter (fun t => decide (0 < t.nb_faces) && decide (0 < t.nb_vertices))

mutual

/-- `clip` (source lines 194–202): clips every child in order, records the
children's surviving face indices shifted by the running pre-clip
face-count offsets (`faces_shifts`, computed before the loop) into
`_clipping_data['faces_ids']`, then prunes the emptied children.  Returns
the updated node together with its recorded `faces_ids`. -/
def MeshNode.clip : MeshNode → Plane → MeshNode × List Nat
  | .leaf m, p => let r := m.clip p; (.leaf r.1, r.2)
  | .coll l nm, p =>
      let r := clipL l p 0
      (.coll (prune_empty_meshes r.1) nm, r.2)

/-- Clips the tail of a children list; `off` is the running pre-clip
face-count offset of the already processed children. -/
def clipL : List MeshNode → Plane → Nat → List MeshNode × List Nat
  | [], _, _ => ([], [])
  | t :: ts, p, off =>
      let r := t.clip p
      let rs := clipL ts p (off + t.nb_faces)
      (r.1 :: rs.1, r.2.map (· + off) ++ rs.2)

end

/-- The external `Mesh.keep_immersed_part`.
Modelled from the spec: keeps the immersed part of the mesh, that is,
clips it at the free surface, keeping the part below `z = 0`. -/
def Mesh.keep_immersed_part (m : Mesh) : Mesh := (m.clip ⟨(0, 0, 1), 0⟩).1

mutual

/-- `keep_immersed_part` (source lines 213–217): forwards to every child,
then prunes emptied children. -/
def MeshNode.keep_immersed_part : MeshNode → MeshNode
  | .leaf m => .leaf m.keep_immersed_part
  | .coll l nm => .coll (prune_empty_meshes (keepImmersedL l)) nm

/-- `keep_immersed_part` applied to each child. -/
def keepImmersedL : List MeshNode → List MeshNode
  | [] => []
  | t :: ts => t.keep_immersed_part :: keepImmersedL ts

end

example : MeshNode.center_of_mass_of_nodes (.coll [] none) = .error .zeroDivisionError := rfl

example :
    MeshNode.center_of_mass_of_nodes (.coll [] none) ≠ .error .emptyCollectionError := by decide

example : MeshNode.nb_faces (.coll [.leaf ⟨[((1:ℤ),0,0)], [[0,0,0,0]], none⟩] none) = 1 := by decide

example :
    MeshNode.tree_view (.coll [.leaf ⟨[], [], some "A"⟩, .leaf ⟨[], [], some "B"⟩] (some "C"))
      = .ok ["C", " ├─A", " └─B"] := by decide

example :
    (MeshNode.clip
      (.coll [.leaf ⟨[((0:ℤ),0,1)], [[0,0,0,0]], some "A"⟩] (some "C"))
      ⟨(0, 0, 1), 0⟩).1.nb_submeshes = 0 := by decide

example :
    (MeshNode.clip
      (.coll [.leaf ⟨[((0:ℤ),0,-1)], [[0,0,0,0]], some "A"⟩,
              .leaf ⟨[((0:ℤ),0,-2)], [[0,0,0,0]], some "B"⟩] (some "C"))
      ⟨(0, 0, 1), 0⟩).2 = [0, 1] := by decide

/-! ### Length and sum lemmas -/

mutual

theorem vertices_length : ∀ t : MeshNode, t.vertices.length = t.nb_vertices
  | .leaf _ => rfl
  | .coll l _ => by
      simp [MeshNode.vertices, MeshNode.nb_vertices, verticesL_length l]

theorem verticesL_length : ∀ l : List MeshNode, (verticesL l).length = nb_verticesL l
  | [] => rfl
  | t :: ts => by
      simp [verticesL, nb_verticesL, vertices_length t, verticesL_length ts]

end

mutual

theorem faces_length : ∀ t : MeshNode, t.faces.length = t.nb_faces
  | .leaf _ => rfl
  | .coll l _ => by
      simp [MeshNode.faces, MeshNode.nb_faces, facesL_length l 0]

theorem facesL_length : ∀ (l : List MeshNode) (off : Nat), (facesL l off).length = nb_facesL l
  | [], _ => rfl
  | t :: ts, off => by
      simp [facesL, nb_facesL, faces_length t, facesL_length ts (off + t.nb_vertices)]

end

theorem nb_facesL_eq_sum : ∀ l : List MeshNode, nb_facesL l = (l.map MeshNode.nb_faces).sum
  | [] => rfl
  | t :: ts => by simp [nb_facesL, nb_facesL_eq_sum ts]

theorem nb_verticesL_eq_sum : ∀ l : List MeshNode, nb_verticesL l = (l.map MeshNode.nb_vertices).sum
  | [] => rfl
  | t :: ts => by simp [nb_verticesL, nb_verticesL_eq_sum ts]

theorem verticesL_eq_flatten : ∀ l : List MeshNode, verticesL l = (l.map MeshNode.vertices).flatten
  | [] => rfl
  | t :: ts => by simp [verticesL, verticesL_eq_flatten ts]

/-- C3: for a non-empty collection of leaves, `nb_faces` is the sum of the
children's `nb_faces` and the concatenated `vertices` array has as many
entries as the sum of the children's `nb_vertices`. -/
theorem claim_C3_aggregate_counts (l : List MeshNode) (nm : Option String)
    (hne : l ≠ []) (hleaf : ∀ t ∈ l, t.isLeaf = true) :
    MeshNode.nb_faces (.coll l nm) = (l.map MeshNode.nb_faces).sum ∧
    (MeshNode.vertices (.coll l nm)).length = (l.map MeshNode.nb_vertices).sum := by
  refine ⟨?_, ?_⟩
  · simp [MeshNode.nb_faces, nb_facesL_eq_sum]
  · simp [MeshNode.vertices, verticesL_length, nb_verticesL_eq_sum]

/-- Witness for C3 on a concrete two-leaf collection. -/
theorem claim_C3_witness :
    MeshNode.nb_faces (.coll [.leaf ⟨[((0:ℤ),0,0), ((1:ℤ),0,0)], [[0,1,1,0]], some "A"⟩,
                              .leaf ⟨[((2:ℤ),0,0)], [[0,0,0,0]], some "B"⟩] (some "C"))
        = ([.leaf ⟨[((0:ℤ),0,0), ((1:ℤ),0,0)], [[0,1,1,0]], some "A"⟩,
            .leaf ⟨[((2:ℤ),0,0)], [[0,0,0,0]], some "B"⟩].map MeshNode.nb_faces).sum ∧
      (MeshNode.vertices (.coll [.leaf ⟨[((0:ℤ),0,0), ((1:ℤ),0,0)], [[0,1,1,0]], some "A"⟩,
                                 .leaf ⟨[((2:ℤ),0,0)], [[0,0,0,0]], some "B"⟩] (some "C"))).length
        = ([.leaf ⟨[((0:ℤ),0,0), ((1:ℤ),0,0)], [[0,1,1,0]], some "A"⟩,
            .leaf ⟨[((2:ℤ),0,0)], [[0,0,0,0]], some "B"⟩].map MeshNode.nb_vertices).sum :=
  claim_C3_aggregate_counts _ (some "C") (List.cons_ne_nil _ _) (by decide)

/-! ### Extraction of one child's slice of the concatenated face array -/

theorem facesL_extract : ∀ (l : List MeshNode) (off i : Nat) (hi : i < l.length),
    ((facesL l off).drop (nb_facesL (l.take i))).take (l.get ⟨i, hi⟩).nb_faces
      = (l.get ⟨i, hi⟩).faces.map (List.map (· + (off + nb_verticesL (l.take i))))
  | t :: ts, off, 0, _ => by
      have hlen : (t.faces.map (List.map (· + off))).length = t.nb_faces := by
        simp [faces_length t]
      simp only [List.take_nil, List.take_zero, nb_facesL, List.drop_zero, facesL, List.get]
      rw [← hlen, List.take_left]
      simp [nb_verticesL]
  | t :: ts, off, i + 1, hi => by
      have hlen : (t.faces.map (List.map (· + off))).length = t.nb_faces := by
        simp [faces_length t]
      have hi' : i < ts.length := Nat.lt_of_succ_lt_succ hi
      simp only [List.take_succ_cons, nb_facesL, facesL, List.get]
      rw [← hlen, List.drop_append]
      rw [facesL_extract ts (off + t.nb_vertices) i hi']
      simp [nb_verticesL, Nat.add_assoc]

/-- C4: for a collection and a valid child index `i`, `indices_of_mesh i`
is the half-open range starting at the total face count of the children
before `i` with length the face count of child `i`, and the concatenated
`faces` array sliced by this range is child `i`'s own face array with every
vertex index shifted by the total vertex count of the children before
`i`. -/
theorem claim_C4_submesh_face_slice (l : List MeshNode) (nm : Option String) (i : Nat)
    (hi : i < l.length) :
    (MeshNode.indices_of_mesh (.coll l nm) i).1 = nb_facesL (l.take i) ∧
    (MeshNode.indices_of_mesh (.coll l nm) i).2
      = nb_facesL (l.take i) + (l.get ⟨i, hi⟩).nb_faces ∧
    ((MeshNode.faces (.coll l nm)).drop (MeshNode.indices_of_mesh (.coll l nm) i).1).take
        (l.get ⟨i, hi⟩).nb_faces
      = (l.get ⟨i, hi⟩).faces.map (List.map (· + nb_verticesL (l.take i))) := by
  refine ⟨rfl, ?_, ?_⟩
  · simp [MeshNode.indices_of_mesh, MeshNode.children,
      List.getD_eq_getElem?_getD, List.getElem?_eq_getElem hi]
  · have h := facesL_extract l 0 i hi
    simpa [MeshNode.faces, MeshNode.indices_of_mesh, MeshNode.children] using h

/-- Witness for C4: the slice of the second child in a concrete two-leaf
collection. -/
theorem claim_C4_witness :
    (MeshNode.indices_of_mesh (.coll [.leaf ⟨[((0:ℤ),0,0), ((1:ℤ),0,0)], [[0,1,1,0]], some "A"⟩,
         .leaf ⟨[((2:ℤ),0,0)], [[0,0,0,0]], some "B"⟩] (some "C")) 1).1
      = nb_facesL ([.leaf ⟨[((0:ℤ),0,0), ((1:ℤ),0,0)], [[0,1,1,0]], some "A"⟩,
         .leaf ⟨[((2:ℤ),0,0)], [[0,0,0,0]], some "B"⟩].take 1) ∧
    (MeshNode.indices_of_mesh (.coll [.leaf ⟨[((0:ℤ),0,0), ((1:ℤ),0,0)], [[0,1,1,0]], some "A"⟩,
         .leaf ⟨[((2:ℤ),0,0)], [[0,0,0,0]], some "B"⟩] (some "C")) 1).2
      = nb_facesL ([.leaf ⟨[((0:ℤ),0,0), ((1:ℤ),0,0)], [[0,1,1,0]], some "A"⟩,
         .leaf ⟨[((2:ℤ),0,0)], [[0,0,0,0]], some "B"⟩].take 1)
        + (MeshNode.nb_faces (([.leaf ⟨[((0:ℤ),0,0), ((1:ℤ),0,0)], [[0,1,1,0]], some "A"⟩,
         .leaf ⟨[((2:ℤ),0,0)], [[0,0,0,0]], some "B"⟩] : List MeshNode).get ⟨1, by decide⟩)) ∧
    ((MeshNode.faces (.coll [.leaf ⟨[((0:ℤ),0,0), ((1:ℤ),0,0)], [[0,1,1,0]], some "A"⟩,
         .leaf ⟨[((2:ℤ),0,0)], [[0,0,0,0]], some "B"⟩] (some "C"))).drop
        (MeshNode.indices_of_mesh (.coll [.leaf ⟨[((0:ℤ),0,0), ((1:ℤ),0,0)], [[0,1,1,0]], some "A"⟩,
         .leaf ⟨[((2:ℤ),0,0)], [[0,0,0,0]], some "B"⟩] (some "C")) 1).1).take
        (MeshNode.nb_faces (([.leaf ⟨[((0:ℤ),0,0), ((1:ℤ),0,0)], [[0,1,1,0]], some "A"⟩,
         .leaf ⟨[((2:ℤ),0,0)], [[0,0,0,0]], some "B"⟩] : List MeshNode).get ⟨1, by decide⟩))
      = (MeshNode.faces (([.leaf ⟨[((0:ℤ),0,0), ((1:ℤ),0,0)], [[0,1,1,0]], some "A"⟩,
         .leaf ⟨[((2:ℤ),0,0)], [[0,0,0,0]], some "B"⟩] : List MeshNode).get ⟨1, by decide⟩)).map
          (List.map (· + nb_verticesL ([.leaf ⟨[((0:ℤ),0,0), ((1:ℤ),0,0)], [[0,1,1,0]], some "A"⟩,
         .leaf ⟨[((2:ℤ),0,0)], [[0,0,0,0]], some "B"⟩].take 1))) :=
  claim_C4_submesh_face_slice _ (some "C") 1 (by decide)

/-! ### Clipping bookkeeping -/

theorem clipL_fst : ∀ (l : List MeshNode) (p : Plane) (off : Nat),
    (clipL l p off).1 = l.map (fun t => (t.clip p).1)
  | [], _, _ => rfl
  | t :: ts, p, off => by
      simp [clipL, clipL_fst ts p (off + t.nb_faces)]

theorem keepImmersedL_eq_map : ∀ l : List MeshNode,
    keepImmersedL l = l.map MeshNode.keep_immersed_part
  | [] => rfl
  | t :: ts => by simp [keepImmersedL, keepImmersedL_eq_map ts]

theorem mem_prune_empty_meshes {t : MeshNode} {l : List MeshNode}
    (h : t ∈ prune_empty_meshes l) : 0 < t.nb_faces ∧ 0 < t.nb_vertices := by
  have h2 := (List.mem_filter.mp h).2
  simp only [Bool.and_eq_true, decide_eq_true_eq] at h2
  exact h2

theorem clipL_snd : ∀ (l : List MeshNode) (p : Plane) (off : Nat),
    (clipL l p off).2
      = ((List.range l.length).map (fun i =>
          (((l.getD i (.coll [] none)).clip p).2).map (· + (off + nb_facesL (l.take i))))).flatten
  | [], _, _ => rfl
  | t :: ts, p, off => by
      have ih := clipL_snd ts p (off + t.nb_faces)
      simp only [clipL, List.length_cons, List.range_succ_eq_map, List.map_cons,
        List.flatten_cons, List.map_map, ih]
      congr 1
      apply congrArg List.flatten
      apply List.map_congr_left
      intro i _
      simp [Function.comp, nb_facesL, Nat.add_assoc, List.getD_eq_getElem?_getD,
        List.getElem?_cons_succ, List.take_succ_cons, Nat.succ_eq_add_one]

mutual

theorem clip_ids_lt : ∀ (t : MeshNode) (p : Plane), ∀ j ∈ (t.clip p).2, j < t.nb_faces
  | .leaf m, p => by
      intro j hj
      simp only [MeshNode.clip, Mesh.clip, List.mem_filter, List.mem_range] at hj
      exact hj.1
  | .coll l nm, p => by
      intro j hj
      have h := clipL_ids_lt l p 0 j hj
      simpa [MeshNode.nb_faces] using h

theorem clipL_ids_lt : ∀ (l : List MeshNode) (p : Plane) (off : Nat),
    ∀ j ∈ (clipL l p off).2, j < off + nb_facesL l
  | [], _, _ => by intro j hj; simp [clipL] at hj
  | t :: ts, p, off => by
      intro j hj
      simp only [clipL, List.mem_append, List.mem_map] at hj
      rcases hj with ⟨i, hi, rfl⟩ | hj
      · have h := clip_ids_lt t p i hi
        simp only [nb_facesL]
        omega
      · have h := clipL_ids_lt ts p (off + t.nb_faces) j hj
        simp only [nb_facesL]
        omega

end

/-- C5: after `clip`, the recorded `faces_ids` of a collection is the
concatenation, in child order, of each child's own surviving face indices
shifted by the total pre-clip face count of the earlier children, and
every recorded index is a valid index into the pre-clip concatenated face
array. -/
theorem claim_C5_clip_survivor_indices (l : List MeshNode) (nm : Option String) (p : Plane) :
    (MeshNode.clip (.coll l nm) p).2
      = ((List.range l.length).map (fun i =>
          (((l.getD i (.coll [] none)).clip p).2).map (· + nb_facesL (l.take i)))).flatten ∧
    ∀ j ∈ (MeshNode.clip (.coll l nm) p).2, j < MeshNode.nb_faces (.coll l nm) := by
  constructor
  · have h := clipL_snd l p 0
    simpa [MeshNode.clip] using h
  · intro j hj
    exact clip_ids_lt (.coll l nm) p j hj

/-- Witness for C5 on a concrete two-leaf collection cut by the plane
`z ≤ 0`: the first leaf (one face above, one below) keeps face `1`, the
second leaf keeps its only face, recorded as global index `2`. -/
theorem claim_C5_witness :
    (MeshNode.clip (.coll [.leaf ⟨[((0:ℤ),0,1), ((0:ℤ),0,-1)], [[0,0,0,0], [1,1,1,1]], some "A"⟩,
          .leaf ⟨[((0:ℤ),0,-2)], [[0,0,0,0]], some "B"⟩] (some "C")) ⟨(0, 0, 1), 0⟩).2
      = ((List.range ([.leaf ⟨[((0:ℤ),0,1), ((0:ℤ),0,-1)], [[0,0,0,0], [1,1,1,1]], some "A"⟩,
          .leaf ⟨[((0:ℤ),0,-2)], [[0,0,0,0]], some "B"⟩] : List MeshNode).length).map (fun i =>
          (((([.leaf ⟨[((0:ℤ),0,1), ((0:ℤ),0,-1)], [[0,0,0,0], [1,1,1,1]], some "A"⟩,
          .leaf ⟨[((0:ℤ),0,-2)], [[0,0,0,0]], some "B"⟩] : List MeshNode).getD i
              (.coll [] none)).clip ⟨(0, 0, 1), 0⟩).2).map
            (· + nb_facesL (([.leaf ⟨[((0:ℤ),0,1), ((0:ℤ),0,-1)], [[0,0,0,0], [1,1,1,1]], some "A"⟩,
          .leaf ⟨[((0:ℤ),0,-2)], [[0,0,0,0]], some "B"⟩] : List MeshNode).take i)))).flatten ∧
    ∀ j ∈ (MeshNode.clip (.coll [.leaf ⟨[((0:ℤ),0,1), ((0:ℤ),0,-1)], [[0,0,0,0], [1,1,1,1]], some "A"⟩,
          .leaf ⟨[((0:ℤ),0,-2)], [[0,0,0,0]], some "B"⟩] (some "C")) ⟨(0, 0, 1), 0⟩).2,
      j < MeshNode.nb_faces (.coll [.leaf ⟨[((0:ℤ),0,1), ((0:ℤ),0,-1)], [[0,0,0,0], [1,1,1,1]], some "A"⟩,
          .leaf ⟨[((0:ℤ),0,-2)], [[0,0,0,0]], some "B"⟩] (some "C")) :=
  claim_C5_clip_survivor_indices _ (some "C") ⟨(0, 0, 1), 0⟩

/-- C6: after `clip` or `keep_immersed_part`, every remaining child has a
strictly positive face count and a strictly positive vertex count; and if
the plane empties every child, the clipped collection has no submeshes
left. -/
theorem claim_C6_pruning (l : List MeshNode) (nm : Option String) (p : Plane) :
    (∀ t ∈ (MeshNode.clip (.coll l nm) p).1.children, 0 < t.nb_faces ∧ 0 < t.nb_vertices) ∧
    (∀ t ∈ (MeshNode.keep_immersed_part (.coll l nm)).children,
        0 < t.nb_faces ∧ 0 < t.nb_vertices) ∧
    ((∀ t ∈ l, (t.clip p).1.nb_faces = 0) →
        (MeshNode.clip (.coll l nm) p).1.nb_submeshes = 0) := by
  refine ⟨?_, ?_, ?_⟩
  · intro t ht
    simp only [MeshNode.clip, MeshNode.children] at ht
    exact mem_prune_empty_meshes ht
  · intro t ht
    simp only [MeshNode.keep_immersed_part, MeshNode.children] at ht
    exact mem_prune_empty_meshes ht
  · intro hall
    simp only [MeshNode.clip, MeshNode.nb_submeshes, MeshNode.children, List.length_eq_zero]
    rw [prune_empty_meshes, clipL_fst l p 0]
    apply List.filter_eq_nil_iff.mpr
    intro t ht
    rcases List.mem_map.mp ht with ⟨u, hu, rfl⟩
    simp [hall u hu]

/-- Witness for C6: a collection whose single face lies entirely above the
free surface is emptied and pruned down to zero submeshes. -/
theorem claim_C6_witness :
    (∀ t ∈ (MeshNode.clip (.coll [.leaf ⟨[((0:ℤ),0,1)], [[0,0,0,0]], some "A"⟩] (some "C"))
          ⟨(0, 0, 1), 0⟩).1.children, 0 < t.nb_faces ∧ 0 < t.nb_vertices) ∧
    (∀ t ∈ (MeshNode.keep_immersed_part
          (.coll [.leaf ⟨[((0:ℤ),0,1)], [[0,0,0,0]], some "A"⟩] (some "C"))).children,
        0 < t.nb_faces ∧ 0 < t.nb_vertices) ∧
    ((∀ t ∈ ([.leaf ⟨[((0:ℤ),0,1)], [[0,0,0,0]], some "A"⟩] : List MeshNode),
        (t.clip ⟨(0, 0, 1), 0⟩).1.nb_faces = 0) →
      (MeshNode.clip (.coll [.leaf ⟨[((0:ℤ),0,1)], [[0,0,0,0]], some "A"⟩] (some "C"))
          ⟨(0, 0, 1), 0⟩).1.nb_submeshes = 0) :=
  claim_C6_pruning [.leaf ⟨[((0:ℤ),0,1)], [[0,0,0,0]], some "A"⟩] (some "C") ⟨(0, 0, 1), 0⟩

example :
    (MeshNode.clip (.coll [.leaf ⟨[((0:ℤ),0,1)], [[0,0,0,0]], some "A"⟩] (some "C"))
        ⟨(0, 0, 1), 0⟩).1.nb_submeshes = 0 :=
  claim_C6_witness.2.2 (by decide)

/-! ### Structural equality -/

mutual

theorem nodeEq_iff_eraseNames : ∀ a b : MeshNode,
    nodeEq a b = true ↔ eraseNames a = eraseNames b
  | .leaf x, .leaf y => by
      simp [nodeEq, eraseNames, Mesh.structEq]
  | .leaf _, .coll _ _ => by
      simp [nodeEq, eraseNames]
  | .coll _ _, .leaf _ => by
      simp [nodeEq, eraseNames]
  | .coll l1 _, .coll l2 _ => by
      simp [nodeEq, eraseNames, nodeEqL_iff_eraseNamesL l1 l2]

theorem nodeEqL_iff_eraseNamesL : ∀ l1 l2 : List MeshNode,
    nodeEqL l1 l2 = true ↔ eraseNamesL l1 = eraseNamesL l2
  | [], [] => by simp [nodeEqL, eraseNamesL]
  | [], _ :: _ => by simp [nodeEqL, eraseNamesL]
  | _ :: _, [] => by simp [nodeEqL, eraseNamesL]
  | a :: ts, b :: us => by
      simp [nodeEqL, eraseNamesL, nodeEq_iff_eraseNames a b, nodeEqL_iff_eraseNamesL ts us]

end

/-- C7: two collections compare equal exactly when their child sequences
are structurally equal (names erased, as the code compares no names) in
the same order; and two collections holding the same two distinct children
in swapped order compare unequal. -/
theorem claim_C7_structural_equality (l1 l2 : List MeshNode) (n1 n2 n3 n4 : Option String)
    (a b : MeshNode) (hab : nodeEq a b = false) :
    (nodeEq (.coll l1 n1) (.coll l2 n2) = true ↔ eraseNamesL l1 = eraseNamesL l2) ∧
    nodeEq (.coll [a, b] n3) (.coll [b, a] n4) = false := by
  constructor
  · simpa [nodeEq, eraseNames] using nodeEqL_iff_eraseNamesL l1 l2
  · simp [nodeEq, nodeEqL, hab]

/-- Witness for C7: equal child sequences under different collection names
compare equal; the swapped pair of the two distinct leaves compares
unequal. -/
theorem claim_C7_witness :
    (nodeEq (.coll [.leaf ⟨[((1:ℤ),0,0)], [[0,0,0,0]], some "A"⟩] (some "x"))
        (.coll [.leaf ⟨[((1:ℤ),0,0)], [[0,0,0,0]], some "A2"⟩] (some "y")) = true
      ↔ eraseNamesL [.leaf ⟨[((1:ℤ),0,0)], [[0,0,0,0]], some "A"⟩]
          = eraseNamesL [.leaf ⟨[((1:ℤ),0,0)], [[0,0,0,0]], some "A2"⟩]) ∧
    nodeEq (.coll [.leaf ⟨[((1:ℤ),0,0)], [[0,0,0,0]], some "A"⟩,
                   .leaf ⟨[((2:ℤ),0,0)], [[0,0,0,0]], some "B"⟩] (some "C"))
        (.coll [.leaf ⟨[((2:ℤ),0,0)], [[0,0,0,0]], some "B"⟩,
                .leaf ⟨[((1:ℤ),0,0)], [[0,0,0,0]], some "A"⟩] (some "C")) = false :=
  claim_C7_structural_equality _ _ (some "x") (some "y") (some "C") (some "C") _ _ (by decide)

/-! ### Errors on the empty collection and on foreign children -/

/-- C1 (counterexample): on the empty collection, `center_of_mass_of_nodes`
raises `ZeroDivisionError`, not the `EmptyCollectionError` named by the
specification (no such error class exists in the code). -/
theorem claim_C1_counterexample :
    MeshNode.center_of_mass_of_nodes (.coll [] (some "C")) = .error .zeroDivisionError ∧
    MeshNode.center_of_mass_of_nodes (.coll [] (some "C")) ≠ .error .emptyCollectionError :=
  ⟨rfl, by decide⟩

/-- C1 (amended): computing the center of mass of an empty collection
raises the generic arithmetic `ZeroDivisionError` (`0 / 0` on the vertex
count); scalar aggregates such as `nb_faces` and `nb_vertices` simply
return `0` there. -/
theorem claim_C1_empty_collection_errors (nm : Option String) :
    MeshNode.center_of_mass_of_nodes (.coll [] nm) = .error .zeroDivisionError ∧
    MeshNode.nb_faces (.coll [] nm) = 0 ∧
    MeshNode.nb_vertices (.coll [] nm) = 0 :=
  ⟨rfl, rfl, rfl⟩

/-- C2 (counterexample): constructing a collection from a child that is
neither a mesh nor a collection fails with `AssertionError` (the `assert`
of source line 38), not with the `TypeMismatchError` named by the
specification (no such error class exists in the code). -/
theorem claim_C2_counterexample :
    collectionOfMeshes [.other "42"] none = .error .assertionError ∧
    collectionOfMeshes [.other "42"] none ≠ .error .typeMismatchError :=
  ⟨rfl, by
    intro h
    rw [show collectionOfMeshes [.other "42"] none = .error .assertionError from rfl] at h
    exact PyErr.noConfusion (Except.error.inj h)⟩

/-- C2 (amended): constructing a collection from a sequence containing an
element that is neither a leaf `Mesh` nor a `CollectionOfMeshes` fails
fast with an `AssertionError`. -/
theorem claim_C2_assertion_on_foreign_child (ms : List PyVal) (nm : Option String)
    (h : ∃ v ∈ ms, v.isMeshOrCollection = false) :
    collectionOfMeshes ms nm = .error .assertionError := by
  obtain ⟨v, hv, hfalse⟩ := h
  have hall : ms.all PyVal.isMeshOrCollection = false := by
    rw [List.all_eq_false]
    exact ⟨v, hv, by simp [hfalse]⟩
  simp [collectionOfMeshes, hall]

/-- Witness for C2 (amended) on a concrete foreign element. -/
theorem claim_C2_witness :
    collectionOfMeshes [.other "42", .node (.leaf ⟨[], [], some "A"⟩)] (some "C")
      = .error .assertionError :=
  claim_C2_assertion_on_foreign_child _ (some "C")
    ⟨.other "42", by simp, by decide⟩

/-! ### Center of mass -/

theorem vecQ_zero : vecQ 0 = 0 := rfl

theorem vecQ_add (a b : Vec3) : vecQ (a + b) = vecQ a + vecQ b := by
  simp [vecQ, Prod.ext_iff]

mutual

/-- The condition under which the center-of-mass recursion divides by no
zero vertex count: every leaf holds a vertex and every collection a
child. -/
def comDefined : MeshNode → Bool
  | .leaf m => decide (0 < m.nb_vertices)
  | .coll l _ => !l.isEmpty && comDefinedL l

def comDefinedL : List MeshNode → Bool
  | [] => true
  | t :: ts => comDefined t && comDefinedL ts

end

theorem comDefinedL_mem : ∀ {l : List MeshNode}, comDefinedL l = true →
    ∀ t ∈ l, comDefined t = true := by
  intro l
  induction l with
  | nil => intro _ t ht; cases ht
  | cons a ts ih =>
      intro h t ht
      simp only [comDefinedL, Bool.and_eq_true] at h
      rcases List.mem_cons.mp ht with rfl | ht2
      · exact h.1
      · exact ih h.2 t ht2

mutual

theorem comDefined_pos : ∀ t : MeshNode, comDefined t = true → 0 < t.nb_vertices
  | .leaf m => by
      simp [comDefined, MeshNode.nb_vertices]
  | .coll l nm => by
      intro h
      simp only [comDefined, Bool.and_eq_true, Bool.not_eq_true'] at h
      have h2 := comDefinedL_pos l h.2 (by
        intro hnil
        rw [hnil] at h
        simp at h)
      simpa [MeshNode.nb_vertices] using h2

theorem comDefinedL_pos : ∀ l : List MeshNode, comDefinedL l = true → l ≠ [] →
    0 < nb_verticesL l
  | [] => by intro _ h; exact absurd rfl h
  | t :: ts => by
      intro h _
      simp only [comDefinedL, Bool.and_eq_true] at h
      have := comDefined_pos t h.1
      simp only [nb_verticesL]
      omega

end

mutual

theorem com_ok : ∀ t : MeshNode, comDefined t = true →
    t.center_of_mass_of_nodes = .ok ((t.nb_vertices : ℚ)⁻¹ • vecQ t.vertices.sum)
  | .leaf m => by
      intro h
      simp only [comDefined, decide_eq_true_eq] at h
      simp [MeshNode.center_of_mass_of_nodes, MeshNode.vertices, MeshNode.nb_vertices,
        Nat.pos_iff_ne_zero.mp h]
  | .coll l nm => by
      intro h
      have h0 := h
      simp only [comDefined, Bool.and_eq_true, Bool.not_eq_true'] at h
      have hsum := comTermsL_ok l h.2
      have hpos : 0 < nb_verticesL l := by
        have := comDefined_pos (.coll l nm) h0
        simpa [MeshNode.nb_vertices] using this
      simp [MeshNode.center_of_mass_of_nodes, hsum, Nat.pos_iff_ne_zero.mp hpos,
        MeshNode.vertices, MeshNode.nb_vertices]

theorem comTermsL_ok : ∀ l : List MeshNode, comDefinedL l = true →
    comTermsL l = .ok (vecQ (verticesL l).sum)
  | [] => by intro _; simp [comTermsL, verticesL, vecQ]
  | t :: ts => by
      intro h
      simp only [comDefinedL, Bool.and_eq_true] at h
      have hc := com_ok t h.1
      have hs := comTermsL_ok ts h.2
      have hpos : 0 < t.nb_vertices := comDefined_pos t h.1
      have hne : (t.nb_vertices : ℚ) ≠ 0 := by exact_mod_cast hpos.ne'
      simp only [comTermsL, hc, hs, verticesL, List.sum_append, vecQ_add]
      rw [smul_inv_smul₀ hne]

end

theorem weighted_terms_sum : ∀ l : List MeshNode, comDefinedL l = true →
    (l.map (fun t => (t.nb_vertices : ℚ)
        • ((t.nb_vertices : ℚ)⁻¹ • vecQ t.vertices.sum))).sum
      = vecQ (verticesL l).sum
  | [] => by intro _; simp [verticesL, vecQ]
  | t :: ts => by
      intro h
      simp only [comDefinedL, Bool.and_eq_true] at h
      have hpos : 0 < t.nb_vertices := comDefined_pos t h.1
      have hne : (t.nb_vertices : ℚ) ≠ 0 := by exact_mod_cast hpos.ne'
      simp only [List.map_cons, List.sum_cons, weighted_terms_sum ts h.2, verticesL,
        List.sum_append, vecQ_add, smul_inv_smul₀ hne]

/-- C8: on a non-empty collection whose leaves all hold vertices, the
center of mass equals the sum over children of the child's vertex count
times the child's own center of mass, divided by the collection's total
raw vertex count — which is exactly the mean of the concatenated vertex
array, duplicated vertices counted as often as they occur. -/
theorem claim_C8_vertex_weighted_center (l : List MeshNode) (nm : Option String)
    (hne : l ≠ []) (hdef : comDefinedL l = true) :
    (∀ t ∈ l, t.center_of_mass_of_nodes
        = .ok ((t.nb_vertices : ℚ)⁻¹ • vecQ t.vertices.sum)) ∧
    MeshNode.center_of_mass_of_nodes (.coll l nm)
      = .ok ((MeshNode.nb_vertices (.coll l nm) : ℚ)⁻¹
          • (l.map (fun t => (t.nb_vertices : ℚ)
              • ((t.nb_vertices : ℚ)⁻¹ • vecQ t.vertices.sum))).sum) ∧
    MeshNode.center_of_mass_of_nodes (.coll l nm)
      = .ok ((MeshNode.nb_vertices (.coll l nm) : ℚ)⁻¹
          • vecQ (MeshNode.vertices (.coll l nm)).sum) := by
  have hcoll : comDefined (.coll l nm) = true := by
    simp [comDefined, hdef]
    intro hempty
    exact absurd hempty hne
  have h3 := com_ok (.coll l nm) hcoll
  refine ⟨fun t ht => com_ok t (comDefinedL_mem hdef t ht), ?_, h3⟩
  rw [h3, weighted_terms_sum l hdef]
  simp [MeshNode.vertices]

/-- Witness for C8 on a concrete two-leaf collection. -/
theorem claim_C8_witness :
    (∀ t ∈ ([.leaf ⟨[((1:ℤ),0,0), ((3:ℤ),0,0)], [[0,1,1,0]], some "A"⟩,
             .leaf ⟨[((5:ℤ),0,0)], [[0,0,0,0]], some "B"⟩] : List MeshNode),
      t.center_of_mass_of_nodes
        = .ok ((t.nb_vertices : ℚ)⁻¹ • vecQ t.vertices.sum)) ∧
    MeshNode.center_of_mass_of_nodes
        (.coll [.leaf ⟨[((1:ℤ),0,0), ((3:ℤ),0,0)], [[0,1,1,0]], some "A"⟩,
                .leaf ⟨[((5:ℤ),0,0)], [[0,0,0,0]], some "B"⟩] (some "C"))
      = .ok ((MeshNode.nb_vertices
            (.coll [.leaf ⟨[((1:ℤ),0,0), ((3:ℤ),0,0)], [[0,1,1,0]], some "A"⟩,
                    .leaf ⟨[((5:ℤ),0,0)], [[0,0,0,0]], some "B"⟩] (some "C")) : ℚ)⁻¹
          • (([.leaf ⟨[((1:ℤ),0,0), ((3:ℤ),0,0)], [[0,1,1,0]], some "A"⟩,
              .leaf ⟨[((5:ℤ),0,0)], [[0,0,0,0]], some "B"⟩] : List MeshNode).map
                (fun t => (t.nb_vertices : ℚ)
                  • ((t.nb_vertices : ℚ)⁻¹ • vecQ t.vertices.sum))).sum) ∧
    MeshNode.center_of_mass_of_nodes
        (.coll [.leaf ⟨[((1:ℤ),0,0), ((3:ℤ),0,0)], [[0,1,1,0]], some "A"⟩,
                .leaf ⟨[((5:ℤ),0,0)], [[0,0,0,0]], some "B"⟩] (some "C"))
      = .ok ((MeshNode.nb_vertices
            (.coll [.leaf ⟨[((1:ℤ),0,0), ((3:ℤ),0,0)], [[0,1,1,0]], some "A"⟩,
                    .leaf ⟨[((5:ℤ),0,0)], [[0,0,0,0]], some "B"⟩] (some "C")) : ℚ)⁻¹
          • vecQ (MeshNode.vertices
              (.coll [.leaf ⟨[((1:ℤ),0,0), ((3:ℤ),0,0)], [[0,1,1,0]], some "A"⟩,
                      .leaf ⟨[((5:ℤ),0,0)], [[0,0,0,0]], some "B"⟩] (some "C"))).sum) :=
  claim_C8_vertex_weighted_center _ (some "C") (List.cons_ne_nil _ _) (by decide)

/-! ### Tree rendering -/

theorem decorate_head (p s : String) (b : List String) :
    ∃ r, (decorate p s b).head? = some (p ++ r) := by
  cases b with
  | nil => exact ⟨"", by simp [decorate, String.append_empty]⟩
  | cons x xs => exact ⟨x, by simp [decorate]⟩

theorem decorate_tail (p s : String) (b : List String) :
    ∀ x ∈ (decorate p s b).tail, ∃ r, x = s ++ r := by
  cases b with
  | nil => intro x hx; simp [decorate] at hx
  | cons y ys =>
      intro x hx
      simp only [decorate, List.tail_cons, List.mem_map] at hx
      obtain ⟨r, _, rfl⟩ := hx
      exact ⟨r, rfl⟩

theorem treeViewChildrenL_spec : ∀ (l : List MeshNode) (blocks : List (List String)),
    treeViewChildrenL l = .ok blocks →
    blocks.length = l.length ∧
    (∀ b ∈ blocks.dropLast, ∃ cb, b = decorate " ├─" " │ " cb) ∧
    (∀ b, blocks.getLast? = some b → ∃ cb, b = decorate " └─" "   " cb)
  | [], blocks => by
      intro h
      injection h with h2
      subst h2
      refine ⟨rfl, ?_, ?_⟩
      · intro b hb; simp at hb
      · intro b hb; simp at hb
  | [t], blocks => by
      intro h
      simp only [treeViewChildrenL] at h
      cases ht : t.tree_view with
      | error e => rw [ht] at h; cases h
      | ok cb =>
          rw [ht] at h
          injection h with h2
          subst h2
          refine ⟨rfl, ?_, ?_⟩
          · intro b hb; simp at hb
          · intro b hb
            simp only [List.getLast?_singleton, Option.some.injEq] at hb
            exact ⟨cb, hb.symm⟩
  | t :: t2 :: ts, blocks => by
      intro h
      simp only [treeViewChildrenL] at h
      cases ht : t.tree_view with
      | error e => rw [ht] at h; cases h
      | ok cb =>
          rw [ht] at h
          cases hc : treeViewChildrenL (t2 :: ts) with
          | error e => rw [hc] at h; cases h
          | ok bs =>
              rw [hc] at h
              injection h with h2
              subst h2
              obtain ⟨ih1, ih2, ih3⟩ := treeViewChildrenL_spec (t2 :: ts) bs hc
              have hbs : bs ≠ [] := by
                intro hnil
                rw [hnil] at ih1
                simp at ih1
              obtain ⟨y, ys, rfl⟩ := List.exists_cons_of_ne_nil hbs
              refine ⟨by simpa using ih1, ?_, ?_⟩
              · intro b hb
                rw [List.dropLast_cons₂] at hb
                rcases List.mem_cons.mp hb with rfl | hb2
                · exact ⟨cb, rfl⟩
                · exact ih2 b hb2
              · intro b hb
                rw [List.getLast?_cons_cons] at hb
                exact ih3 b hb

/-- C9: rendering a named collection with at least two children yields the
name line followed by the children's blocks, where every block but the
last starts with the continuing branch glyph `' ├─'` and continues its
wrapped lines with the bar `' │ '`, while the last block starts with the
corner glyph `' └─'` and continues with blanks (no bar below it). -/
theorem claim_C9_tree_glyphs (l : List MeshNode) (n : String) (blocks : List (List String))
    (hlen : 2 ≤ l.length) (hok : treeViewChildrenL l = .ok blocks) :
    MeshNode.tree_view (.coll l (some n)) = .ok (n :: blocks.flatten) ∧
    blocks.length = l.length ∧
    (∀ b ∈ blocks.dropLast, (∃ r, b.head? = some (" ├─" ++ r)) ∧
        ∀ s ∈ b.tail, ∃ r, s = " │ " ++ r) ∧
    (∀ b, blocks.getLast? = some b → (∃ r, b.head? = some (" └─" ++ r)) ∧
        ∀ s ∈ b.tail, ∃ r, s = "   " ++ r) := by
  obtain ⟨h1, h2, h3⟩ := treeViewChildrenL_spec l blocks hok
  refine ⟨by simp [MeshNode.tree_view, hok], h1, ?_, ?_⟩
  · intro b hb
    obtain ⟨cb, rfl⟩ := h2 b hb
    exact ⟨decorate_head _ _ cb, decorate_tail _ _ cb⟩
  · intro b hb
    obtain ⟨cb, rfl⟩ := h3 b hb
    exact ⟨decorate_head _ _ cb, decorate_tail _ _ cb⟩

/-- Witness for C9: the collection named `C` with leaves `A` and `B`
renders as `C`, `' ├─A'`, `' └─B'`. -/
theorem claim_C9_witness :
    MeshNode.tree_view (.coll [.leaf ⟨[], [], some "A"⟩, .leaf ⟨[], [], some "B"⟩] (some "C"))
        = .ok ("C" :: ([[" ├─A"], [" └─B"]] : List (List String)).flatten) ∧
    ([[" ├─A"], [" └─B"]] : List (List String)).length
        = ([.leaf ⟨[], [], some "A"⟩, .leaf ⟨[], [], some "B"⟩] : List MeshNode).length ∧
    (∀ b ∈ ([[" ├─A"], [" └─B"]] : List (List String)).dropLast,
        (∃ r, b.head? = some (" ├─" ++ r)) ∧ ∀ s ∈ b.tail, ∃ r, s = " │ " ++ r) ∧
    (∀ b, ([[" ├─A"], [" └─B"]] : List (List String)).getLast? = some b →
        (∃ r, b.head? = some (" └─" ++ r)) ∧ ∀ s ∈ b.tail, ∃ r, s = "   " ++ r) :=
  claim_C9_tree_glyphs [.leaf ⟨[], [], some "A"⟩, .leaf ⟨[], [], some "B"⟩] "C"
    [[" ├─A"], [" └─B"]] (by decide) rfl

mutual

theorem tree_view_error_typeError : ∀ (t : MeshNode) (e : PyErr),
    t.tree_view = .error e → e = .typeError
  | .leaf _, e => by simp [MeshNode.tree_view]
  | .coll l nm, e => by
      intro h
      simp only [MeshNode.tree_view] at h
      cases hc : treeViewChildrenL l with
      | error e2 =>
          rw [hc] at h
          injection h with h2
          rw [← h2]
          exact treeViewChildrenL_error l e2 hc
      | ok bs =>
          rw [hc] at h
          cases nm with
          | none => injection h with h2; exact h2.symm
          | some n => cases h

theorem treeViewChildrenL_error : ∀ (l : List MeshNode) (e : PyErr),
    treeViewChildrenL l = .error e → e = .typeError
  | [], e => by intro h; cases h
  | [t], e => by
      intro h
      simp only [treeViewChildrenL] at h
      cases ht : t.tree_view with
      | error e2 =>
          rw [ht] at h
          injection h with h2
          rw [← h2]
          exact tree_view_error_typeError t e2 ht
      | ok b => rw [ht] at h; cases h
  | t :: t2 :: ts, e => by
      intro h
      simp only [treeViewChildrenL] at h
      cases ht : t.tree_view with
      | error e2 =>
          rw [ht] at h
          injection h with h2
          rw [← h2]
          exact tree_view_error_typeError t e2 ht
      | ok b =>
          rw [ht] at h
          cases hc : treeViewChildrenL (t2 :: ts) with
          | error e2 =>
              rw [hc] at h
              injection h with h2
              rw [← h2]
              exact treeViewChildrenL_error (t2 :: ts) e2 hc
          | ok bs => rw [hc] at h; cases h

end

/-- C10: on a collection whose name is absent, `tree_view` never returns a
string: the `None + str` concatenation makes it raise `TypeError` (also
when a nested unnamed collection raises first, the error is the same
`TypeError`). -/
theorem claim_C10_unnamed_tree_view_fails (l : List MeshNode) :
    MeshNode.tree_view (.coll l none) = .error .typeError := by
  cases hc : treeViewChildrenL l with
  | error e =>
      have he := treeViewChildrenL_error l e hc
      simp [MeshNode.tree_view, hc, he]
  | ok bs => simp [MeshNode.tree_view, hc]

example : MeshNode.tree_view (.coll [.leaf ⟨[], [], some "A"⟩] none) = .error .typeError :=
  claim_C10_unnamed_tree_view_fails _
